import Mathlib

/-!
Verification of the theme-1 landing-page interactive components against their
natural-language specification.  The development shallowly embeds the three
source files:

* `assets/js/theme-1/light-rays.js`   — namespace `LightRays`
* `assets/js/theme-1/theme-1.js`      — namespace `Theme1` (circular carousel)
* `assets/js/theme-1/video-testimonials.js` — namespace `VideoTestimonials`

Machine numbers are embedded as `ℚ` (exact pixel arithmetic), cursors as `ℤ`,
counts as `ℕ`, and the trigonometric ring layout as `ℝ`.
-/

namespace LightRays

/-- The character class `[a-f\d]` of `hexToRgb`'s case-insensitive regex, by
code points: digits `0`–`9` (48–57), `a`–`f` (97–102), `A`–`F` (65–70). -/
def isHexDigitChar (c : Char) : Bool :=
  (48 ≤ c.toNat ∧ c.toNat ≤ 57) ∨ (97 ≤ c.toNat ∧ c.toNat ≤ 102) ∨
    (65 ≤ c.toNat ∧ c.toNat ≤ 70)

/-- Value of one hexadecimal digit, as interpreted by `parseInt(s, 16)`. -/
def hexVal (c : Char) : ℕ :=
  if 48 ≤ c.toNat ∧ c.toNat ≤ 57 then c.toNat - 48
  else if 97 ≤ c.toNat then c.toNat - 97 + 10
  else c.toNat - 65 + 10

/-- The characters of the hex string after stripping the optional `#`. -/
def stripHash (cs : List Char) : List Char :=
  match cs with
  | '#' :: rest => rest
  | _ => cs

/-- Whether the whole string matches the regex of `hexToRgb`. -/
def matchesHex (s : String) : Bool :=
  let cs := stripHash s.data
  cs.length = 6 && cs.all isHexDigitChar

/-- The three base-16 channel values captured by the regex groups, when the
string matches (`parseInt(m[i], 16)` on each two-digit group). -/
def hexChannels (s : String) : Option (ℕ × ℕ × ℕ) :=
  let cs := stripHash s.data
  if cs.length = 6 && cs.all isHexDigitChar then
    match cs with
    | [c1, c2, c3, c4, c5, c6] =>
        some (16 * hexVal c1 + hexVal c2, 16 * hexVal c3 + hexVal c4,
          16 * hexVal c5 + hexVal c6)
    | _ => none
  else none

/-- Embeds `hexToRgb` from `light-rays.js`: on a match, each two-digit channel
is parsed base-16 and divided by 255; otherwise the fallback is `[1, 1, 1]`. -/
def hexToRgb (s : String) : List ℚ :=
  match hexChannels s with
  | some (r, g, b) => [(r : ℚ) / 255, (g : ℚ) / 255, (b : ℚ) / 255]
  | none => [1, 1, 1]

/-- The `outside` constant of `getAnchorAndDir` (`0.2`). -/
def outside : ℚ := 0.2

/-- Embeds `getAnchorAndDir(origin, w, h)` from `light-rays.js`: the switch on
the origin string, with the `top-center` behaviour as the default branch. -/
def getAnchorAndDir (origin : String) (w h : ℚ) : (ℚ × ℚ) × (ℚ × ℚ) :=
  if origin = "top-left" then ((0, -outside * h), (0, 1))
  else if origin = "top-right" then ((w, -outside * h), (0, 1))
  else if origin = "left" then ((-outside * w, 0.5 * h), (1, 0))
  else if origin = "right" then (((1 + outside) * w, 0.5 * h), (-1, 0))
  else if origin = "bottom-left" then ((0, (1 + outside) * h), (0, -1))
  else if origin = "bottom-center" then ((0.5 * w, (1 + outside) * h), (0, -1))
  else if origin = "bottom-right" then ((w, (1 + outside) * h), (0, -1))
  else ((0.5 * w, -outside * h), (0, 1))

end LightRays

namespace Theme1

/-- Inner `for` loop of the padding pass in `initCircularTestimonials`:
`for (let i = 0; i < baseItems.length && items.length < 10; i++)` pushes one
clone per iteration.  `remaining` counts the iterations left of the `for`. -/
def innerClone : ℕ → ℕ → ℕ
  | 0, len => len
  | remaining + 1, len => if len < 10 then innerClone remaining (len + 1) else len

/-- Outer `while (items.length < 10)` loop, fuelled (the source loop would
diverge only for zero base items, which the caller guards against). -/
def padLoop (base : ℕ) : ℕ → ℕ → Option ℕ
  | 0, _ => none
  | fuel + 1, len => if len < 10 then padLoop base fuel (innerClone base len) else some len

/-- Final `items.length` after the cloning/padding loop, starting from `N`
original items.  Fuel 12 covers every positive `N` (each pass adds ≥ 1). -/
def paddedLength (N : ℕ) : Option ℕ := padLoop N 12 N

/-- Embeds `rotate('next')`: `order.pop()` then `order.unshift(last)` (the
unshift is guarded by the truthiness of the popped value). -/
def rotateNext {α : Type} (l : List α) : List α :=
  match l.getLast? with
  | none => l
  | some last => last :: l.dropLast

/-- Embeds `rotate('prev')`: `order.shift()` then `order.push(first)`. -/
def rotatePrev {α : Type} (l : List α) : List α :=
  match l with
  | [] => []
  | x :: xs => xs ++ [x]

/-- Embeds `rotate(direction)` with its string comparison
`direction === 'next'`. -/
def rotate {α : Type} (direction : String) (l : List α) : List α :=
  if direction = "next" then rotateNext l else rotatePrev l

end Theme1

namespace Theme1

/-- Circle radius of `positionItems`: `Math.max(210, baseSize * 0.55)` with
`baseSize = Math.min(rect.width, rect.height)`. -/
noncomputable def radius (w h : ℝ) : ℝ := max 210 (min w h * 0.55)

/-- Angular step of `positionItems`: `(2 * Math.PI) / order.length`. -/
noncomputable def angleStep (n : ℕ) : ℝ := 2 * Real.pi / n

/-- Angle of the item at position `i`: `angleStep * index - Math.PI / 2`. -/
noncomputable def itemAngle (n i : ℕ) : ℝ := angleStep n * i - Real.pi / 2

/-- Horizontal coordinate written by `positionItems` for the item at `i`. -/
noncomputable def itemX (w h : ℝ) (n i : ℕ) (itemW : ℝ) : ℝ :=
  w / 2 + radius w h * Real.cos (itemAngle n i) - itemW / 2

/-- Vertical coordinate written by `positionItems` for the item at `i`. -/
noncomputable def itemY (w h : ℝ) (n i : ℕ) (itemH : ℝ) : ℝ :=
  h / 2 + radius w h * Real.sin (itemAngle n i) - itemH / 2

/-- Euclidean distance between two points of the plane. -/
noncomputable def planeDist (p q : ℝ × ℝ) : ℝ :=
  Real.sqrt ((p.1 - q.1) ^ 2 + (p.2 - q.2) ^ 2)

end Theme1

namespace Theme1

/-- Snapshot of the mutable state touched by the image-loading gate of
`initCircularTestimonials`: the `loadedImages` counter, how many times
`positionItems()` has run, and whether `startAutoRotate()` has run. -/
structure GateState where
  loadedImages : ℕ
  positionCalls : ℕ
  autoStarted : Bool
deriving DecidableEq

/-- Embeds `onImageLoad`: increment the counter and, once it reaches
`totalImages`, run `positionItems()` and `startAutoRotate()`. -/
def onImageLoad (total : ℕ) (s : GateState) : GateState :=
  let l := s.loadedImages + 1
  if total ≤ l then
    { loadedImages := l, positionCalls := s.positionCalls + 1, autoStarted := true }
  else
    { s with loadedImages := l }

/-- The `images.forEach` dispatch: a `complete` image invokes `onImageLoad`
synchronously; a pending one only registers listeners. -/
def forEachImage (total : ℕ) (imgs : List Bool) (s : GateState) : GateState :=
  imgs.foldl (fun s c => if c then onImageLoad total s else s) s

/-- Embeds the tail of `initCircularTestimonials` (the image gate followed by
the unconditional initial `positionItems()` draw).  Each entry of `imgs` is
the `complete` flag of one `<img>` at init time. -/
def initImageGate (imgs : List Bool) : GateState :=
  let total := imgs.length
  let s0 : GateState := ⟨0, 0, false⟩
  let s1 :=
    if total = 0 then
      { s0 with positionCalls := s0.positionCalls + 1, autoStarted := true }
    else forEachImage total imgs s0
  { s1 with positionCalls := s1.positionCalls + 1 }

/-- After init, each image that was still pending eventually fires exactly one
`load` or `error` event, each running `onImageLoad` once. -/
def fireRemaining (imgs : List Bool) (s : GateState) : GateState :=
  (imgs.filter (fun c => !c)).foldl (fun s _ => onImageLoad imgs.length s) s

/-- The DOM anchors `initCircularTestimonials` looks up before its guard. -/
structure CircDom where
  wrapper : Bool
  circle : Bool
  itemCount : ℕ
  prevBtn : Bool
  nextBtn : Bool

/-- Embeds the guard of `initCircularTestimonials`:
`if (!wrapper || !circle || !items.length || !prevBtn || !nextBtn) return;`.
`none` is the silent no-op return; otherwise the padded item count is set up. -/
def initCircularTestimonials (d : CircDom) : Option ℕ :=
  if !d.wrapper || !d.circle || d.itemCount = 0 || !d.prevBtn || !d.nextBtn then none
  else paddedLength d.itemCount

end Theme1

namespace VideoTestimonials

/-- Embeds `cloneCards`: one clone per original appended at the end, then the
reversed originals each inserted before the first child (`insertBefore`). -/
def cloneCards {α : Type} (orig : List α) : List α :=
  orig.reverse.foldl (fun t c => c :: t) (orig ++ orig)

/-- Embeds `checkLoop`'s settling assignment, parameterised by `cards.length`
and `totalSlides`: past `maxIndex` the cursor re-homes to `totalSlides`;
below `totalSlides` it re-homes to `maxIndex - 1`; otherwise it is kept. -/
def checkLoop (cardsLen N : ℕ) (c : ℤ) : ℤ :=
  let maxIndex : ℤ := (cardsLen : ℤ) - (N : ℤ)
  if maxIndex ≤ c then (N : ℤ)
  else if c < (N : ℤ) then maxIndex - 1
  else c

/-- Cursor after one `next()` call once its loop-check has settled:
`current++` followed by `checkLoop` over the `3N`-card track. -/
def nextSettled (N : ℕ) (c : ℤ) : ℤ := checkLoop (3 * N) N (c + 1)

/-- Settled cursor after `k` consecutive `next()` calls starting from the
initial position `current = totalSlides`. -/
def settleIter (N : ℕ) : ℕ → ℤ
  | 0 => (N : ℤ)
  | k + 1 => nextSettled N (settleIter N k)

/-- Pixel offset written by `update`: `(cardWidth + gap) * current`. -/
def offsetPx (cardWidth gap : ℕ) (c : ℤ) : ℤ := ((cardWidth : ℤ) + (gap : ℤ)) * c

/-- Embeds `getRealIndex`: JavaScript `%` is truncated remainder (`Int.tmod`),
then negative values are normalized by adding `totalSlides`. -/
def getRealIndex (N : ℕ) (index : ℤ) : ℤ :=
  let realIdx := Int.tmod (index - (N : ℤ)) (N : ℤ)
  if realIdx < 0 then realIdx + (N : ℤ) else realIdx

/-- Embeds the dot-building loop of `createPagination`:
`for (let i = 0; i < totalSlides; i++)` appends one dot per original item. -/
def createPagination (N : ℕ) : List ℕ := List.range N

/-- Which commitment `endDrag` makes on release. -/
inductive DragCommit where
  | stepNext
  | stepPrev
  | snapBack
deriving DecidableEq

/-- Embeds the decision of `endDrag`: compare `|moved|` with
`cardWidth / 3`; past the threshold commit `next()`/`prev()` (swapped under
right-to-left layout), otherwise `update(true)` snaps back. -/
def endDrag (rtl : Bool) (moved cardWidth : ℚ) : DragCommit :=
  if |moved| > cardWidth / 3 then
    if moved < 0 then (if rtl then .stepPrev else .stepNext)
    else (if rtl then .stepNext else .stepPrev)
  else .snapBack

/-- Effect of the committed action on the cursor: `next()` increments,
`prev()` decrements, `update(true)` leaves it unchanged. -/
def commitStep : DragCommit → ℤ → ℤ
  | .stepNext, c => c + 1
  | .stepPrev, c => c - 1
  | .snapBack, c => c

/-- The DOM anchors `init` looks up before its guards. -/
structure VideoDom where
  track : Bool
  slider : Bool
  cardCount : ℕ

/-- The module-level slider state an `init` attempt can mutate. -/
structure VideoState where
  current : ℤ
  totalSlides : ℕ
  initialized : Bool
deriving DecidableEq

/-- Embeds the guards of `init`: a missing track or slider container, or an
empty card list, returns early (scheduling a silent retry) with the state
untouched; otherwise the slider is set up with `current = totalSlides`. -/
def init (d : VideoDom) (s : VideoState) : VideoState :=
  if !d.track || !d.slider then s
  else if d.cardCount = 0 then s
  else { current := (d.cardCount : ℤ), totalSlides := d.cardCount, initialized := true }

end VideoTestimonials

section ScratchTests

example : Theme1.paddedLength 3 = some 10 := by decide
example : Theme1.paddedLength 5 = some 10 := by decide
example : Theme1.paddedLength 1 = some 10 := by decide
example : Theme1.rotate "next" [1, 2, 3] = [3, 1, 2] := by decide
example : Theme1.rotate "prev" [1, 2, 3] = [2, 3, 1] := by decide
example : LightRays.hexChannels "#ff0000" = some (255, 0, 0) := by decide
example : LightRays.hexChannels "oops" = none := by decide
example : LightRays.hexChannels "1A2b3C" = some (26, 43, 60) := by decide
example : LightRays.hexToRgb "#ff0000" = [1, 0, 0] := by
  rw [LightRays.hexToRgb, show LightRays.hexChannels "#ff0000" = some (255, 0, 0) from by decide]
  norm_num
example : LightRays.hexToRgb "oops" = [1, 1, 1] := by
  rw [LightRays.hexToRgb, show LightRays.hexChannels "oops" = none from by decide]
example : LightRays.getAnchorAndDir "left" 10 20 = ((-2, 10), (1, 0)) := by
  simp [LightRays.getAnchorAndDir, LightRays.outside]
  norm_num
example : VideoTestimonials.cloneCards [1, 2, 3] = [1, 2, 3, 1, 2, 3, 1, 2, 3] := by decide
example : VideoTestimonials.settleIter 3 1 = 4 := by decide
example : VideoTestimonials.settleIter 3 2 = 5 := by decide
example : VideoTestimonials.settleIter 3 3 = 3 := by decide
example : VideoTestimonials.getRealIndex 4 (4 + 2) = 2 := by decide
example : VideoTestimonials.getRealIndex 4 3 = 3 := by decide
example : VideoTestimonials.getRealIndex 4 (-5) = 3 := by decide
example : Theme1.initImageGate [false] = ⟨0, 1, false⟩ := by decide
example : Theme1.initImageGate [true, true] = ⟨2, 2, true⟩ := by decide
example : Theme1.initImageGate [] = ⟨0, 2, true⟩ := by decide
example : Theme1.fireRemaining [false] (Theme1.initImageGate [false]) = ⟨1, 2, true⟩ := by decide

end ScratchTests

/-! ### Helper lemmas -/

theorem rotateNext_concat {α : Type} (xs : List α) (x : α) :
    Theme1.rotateNext (xs ++ [x]) = x :: xs := by
  simp [Theme1.rotateNext]

theorem rotateNext_eq_rotate {α : Type} (l : List α) :
    Theme1.rotateNext l = l.rotate (l.length - 1) := by
  rcases List.eq_nil_or_concat l with rfl | ⟨L, b, rfl⟩
  · simp [Theme1.rotateNext]
  · rw [List.concat_eq_append, rotateNext_concat]
    rw [List.length_append, List.length_singleton, Nat.add_sub_cancel,
      List.rotate_eq_drop_append_take (by simp), List.drop_left, List.take_left]
    rfl

theorem rotatePrev_eq_rotate {α : Type} (l : List α) :
    Theme1.rotatePrev l = l.rotate 1 := by
  rcases l with _ | ⟨x, xs⟩
  · rfl
  · rw [Theme1.rotatePrev, List.rotate_cons_succ, List.rotate_zero]

theorem hexVal_le_of_isHexDigitChar (c : Char) (h : LightRays.isHexDigitChar c = true) :
    LightRays.hexVal c ≤ 15 := by
  rw [LightRays.isHexDigitChar] at h
  rw [LightRays.hexVal]
  simp only [decide_eq_true_eq] at h
  split
  · omega
  · split <;> omega

theorem foldl_cons_eq {α : Type} (l acc : List α) :
    l.foldl (fun t c => c :: t) acc = l.reverse ++ acc := by
  induction l generalizing acc with
  | nil => simp
  | cons x xs ih => simp [ih]

theorem cloneCards_eq {α : Type} (orig : List α) :
    VideoTestimonials.cloneCards orig = orig ++ orig ++ orig := by
  rw [VideoTestimonials.cloneCards, foldl_cons_eq, List.reverse_reverse,
    List.append_assoc]

theorem cloneCards_length {α : Type} (orig : List α) :
    (VideoTestimonials.cloneCards orig).length = 3 * orig.length := by
  rw [cloneCards_eq]
  simp only [List.length_append]
  ring

theorem settleIter_of_lt (N : ℕ) (k : ℕ) (hk : k < N) :
    VideoTestimonials.settleIter N k = (N : ℤ) + k := by
  induction k with
  | zero => simp [VideoTestimonials.settleIter]
  | succ k ih =>
    have hk' : k < N := Nat.lt_of_succ_lt hk
    rw [VideoTestimonials.settleIter, ih hk', VideoTestimonials.nextSettled,
      VideoTestimonials.checkLoop]
    have h1 : ¬ (((3 * N : ℕ) : ℤ) - (N : ℤ) ≤ (N : ℤ) + (k : ℤ) + 1) := by
      push_cast
      omega
    have h2 : ¬ ((N : ℤ) + (k : ℤ) + 1 < (N : ℤ)) := by omega
    simp only [h1, h2, if_false]
    push_cast
    ring

theorem settleIter_self (N : ℕ) (hN : 0 < N) :
    VideoTestimonials.settleIter N N = (N : ℤ) := by
  obtain ⟨M, rfl⟩ : ∃ M, N = M + 1 := ⟨N - 1, by omega⟩
  rw [VideoTestimonials.settleIter, settleIter_of_lt (M + 1) M (by omega),
    VideoTestimonials.nextSettled, VideoTestimonials.checkLoop]
  have h1 : ((3 * (M + 1) : ℕ) : ℤ) - ((M + 1 : ℕ) : ℤ) ≤
      ((M + 1 : ℕ) : ℤ) + (M : ℤ) + 1 := by
    push_cast
    omega
  simp only [h1, if_true]

theorem tmod_neg_left (a b : ℤ) : Int.tmod (-a) b = -Int.tmod a b := by
  rw [Int.tmod_def, Int.tmod_def, Int.neg_tdiv]
  ring

theorem neg_lt_tmod (x N : ℤ) (hN : 0 < N) : -N < Int.tmod x N := by
  rcases le_or_lt 0 x with hx | hx
  · have h := Int.tmod_nonneg N hx
    omega
  · have h1 : Int.tmod (-x) N < N := Int.tmod_lt_of_pos (-x) hN
    have h2 := tmod_neg_left (-x) N
    rw [neg_neg] at h2
    omega

theorem tmod_emod_congr (x N : ℤ) : Int.tmod x N % N = x % N := by
  conv_rhs => rw [← Int.tmod_add_tdiv x N]
  rw [Int.add_mul_emod_self_left]

theorem getRealIndex_eq_emod (N : ℕ) (hN : 0 < N) (i : ℤ) :
    VideoTestimonials.getRealIndex N i = (i - (N : ℤ)) % (N : ℤ) ∧
      0 ≤ VideoTestimonials.getRealIndex N i ∧
      VideoTestimonials.getRealIndex N i < (N : ℤ) := by
  have hNZ : (0 : ℤ) < (N : ℤ) := by exact_mod_cast hN
  simp only [VideoTestimonials.getRealIndex]
  have hub : Int.tmod (i - (N : ℤ)) (N : ℤ) < (N : ℤ) :=
    Int.tmod_lt_of_pos (i - (N : ℤ)) hNZ
  have hlb : -(N : ℤ) < Int.tmod (i - (N : ℤ)) (N : ℤ) :=
    neg_lt_tmod (i - (N : ℤ)) (N : ℤ) hNZ
  have hcong : Int.tmod (i - (N : ℤ)) (N : ℤ) % (N : ℤ) = (i - (N : ℤ)) % (N : ℤ) :=
    tmod_emod_congr (i - (N : ℤ)) (N : ℤ)
  by_cases hneg : Int.tmod (i - (N : ℤ)) (N : ℤ) < 0
  · rw [if_pos hneg]
    have heq : (Int.tmod (i - (N : ℤ)) (N : ℤ) + (N : ℤ)) % (N : ℤ) =
        Int.tmod (i - (N : ℤ)) (N : ℤ) % (N : ℤ) := by
      rw [show Int.tmod (i - (N : ℤ)) (N : ℤ) + (N : ℤ) =
        Int.tmod (i - (N : ℤ)) (N : ℤ) + (N : ℤ) * 1 by ring,
        Int.add_mul_emod_self_left]
    have hself : (Int.tmod (i - (N : ℤ)) (N : ℤ) + (N : ℤ)) % (N : ℤ) =
        Int.tmod (i - (N : ℤ)) (N : ℤ) + (N : ℤ) :=
      Int.emod_eq_of_lt (by omega) (by omega)
    refine ⟨by rw [← hcong, ← heq, hself], by omega, by omega⟩
  · rw [if_neg hneg]
    push_neg at hneg
    have hself : Int.tmod (i - (N : ℤ)) (N : ℤ) % (N : ℤ) =
        Int.tmod (i - (N : ℤ)) (N : ℤ) :=
      Int.emod_eq_of_lt hneg hub
    exact ⟨by rw [← hcong, hself], hneg, hub⟩

theorem forEachImage_spec (total : ℕ) (imgs : List Bool) : ∀ s : Theme1.GateState,
    (Theme1.forEachImage total imgs s).loadedImages =
      s.loadedImages + (imgs.filter (fun c => c)).length ∧
    (Theme1.forEachImage total imgs s).autoStarted =
      (s.autoStarted || decide (0 < (imgs.filter (fun c => c)).length ∧
        total ≤ s.loadedImages + (imgs.filter (fun c => c)).length)) ∧
    s.positionCalls ≤ (Theme1.forEachImage total imgs s).positionCalls := by
  induction imgs with
  | nil => intro s; simp [Theme1.forEachImage]
  | cons c rest ih =>
    intro s
    have hstep : Theme1.forEachImage total (c :: rest) s =
        Theme1.forEachImage total rest
          (if c = true then Theme1.onImageLoad total s else s) := rfl
    cases c with
    | false =>
      rw [hstep, if_neg (by simp)]
      obtain ⟨ha, hb, hc⟩ := ih s
      refine ⟨?_, ?_, hc⟩
      · rw [ha]
        simp [List.filter_cons]
      · rw [hb]
        simp [List.filter_cons]
    | true =>
      rw [hstep, if_pos rfl]
      have hfil : (List.filter (fun c => c) (true :: rest)).length =
          (List.filter (fun c => c) rest).length + 1 := by
        simp [List.filter_cons]
      rw [Theme1.onImageLoad]
      by_cases htot : total ≤ s.loadedImages + 1
      · rw [if_pos htot]
        obtain ⟨ha, hb, hc⟩ := ih ⟨s.loadedImages + 1, s.positionCalls + 1, true⟩
        dsimp only at ha hb hc
        refine ⟨?_, ?_, ?_⟩
        · rw [ha, hfil]
          omega
        · rw [hb, hfil]
          simp only [Bool.true_or]
          have : decide (0 < (List.filter (fun c => c) rest).length + 1 ∧
              total ≤ s.loadedImages + ((List.filter (fun c => c) rest).length + 1)) =
              true := by
            rw [decide_eq_true_eq]
            omega
          rw [this, Bool.or_true]
        · omega
      · rw [if_neg htot]
        obtain ⟨ha, hb, hc⟩ := ih ⟨s.loadedImages + 1, s.positionCalls, s.autoStarted⟩
        dsimp only at ha hb hc
        refine ⟨?_, ?_, ?_⟩
        · rw [ha, hfil]
          omega
        · rw [hb, hfil]
          congr 1
          rw [decide_eq_decide]
          omega
        · omega

theorem foldOnImageLoad_spec (total : ℕ) (lst : List Bool) : ∀ s : Theme1.GateState,
    (lst.foldl (fun s _ => Theme1.onImageLoad total s) s).loadedImages =
      s.loadedImages + lst.length ∧
    (lst.foldl (fun s _ => Theme1.onImageLoad total s) s).autoStarted =
      (s.autoStarted || decide (0 < lst.length ∧ total ≤ s.loadedImages + lst.length)) := by
  induction lst with
  | nil => intro s; simp
  | cons c rest ih =>
    intro s
    rw [List.foldl_cons, Theme1.onImageLoad]
    by_cases htot : total ≤ s.loadedImages + 1
    · rw [if_pos htot]
      obtain ⟨ha, hb⟩ := ih ⟨s.loadedImages + 1, s.positionCalls + 1, true⟩
      dsimp only at ha hb
      refine ⟨?_, ?_⟩
      · rw [ha]
        simp only [List.length_cons]
        omega
      · rw [hb]
        simp only [Bool.true_or, List.length_cons]
        have : decide (0 < rest.length + 1 ∧
            total ≤ s.loadedImages + (rest.length + 1)) = true := by
          rw [decide_eq_true_eq]
          omega
        rw [this, Bool.or_true]
    · rw [if_neg htot]
      obtain ⟨ha, hb⟩ := ih ⟨s.loadedImages + 1, s.positionCalls, s.autoStarted⟩
      dsimp only at ha hb
      refine ⟨?_, ?_⟩
      · rw [ha]
        simp only [List.length_cons]
        omega
      · rw [hb]
        simp only [List.length_cons]
        congr 1
        rw [decide_eq_decide]
        omega

theorem foldOnImageLoad_pos (total : ℕ) (lst : List Bool) : ∀ s : Theme1.GateState,
    s.positionCalls ≤ (lst.foldl (fun s _ => Theme1.onImageLoad total s) s).positionCalls ∧
    (0 < lst.length → total ≤ s.loadedImages + lst.length →
      s.positionCalls <
        (lst.foldl (fun s _ => Theme1.onImageLoad total s) s).positionCalls) := by
  induction lst with
  | nil =>
    intro s
    exact ⟨le_refl _, fun h _ => absurd h (by simp)⟩
  | cons c rest ih =>
    intro s
    rw [List.foldl_cons, Theme1.onImageLoad]
    by_cases htot : total ≤ s.loadedImages + 1
    · rw [if_pos htot]
      obtain ⟨ha, -⟩ := ih ⟨s.loadedImages + 1, s.positionCalls + 1, true⟩
      dsimp only at ha
      exact ⟨by omega, fun _ _ => by omega⟩
    · rw [if_neg htot]
      obtain ⟨ha, hb⟩ := ih ⟨s.loadedImages + 1, s.positionCalls, s.autoStarted⟩
      dsimp only at ha hb
      refine ⟨ha, fun hlen hle => ?_⟩
      simp only [List.length_cons] at hle
      exact hb (by omega) (by omega)

theorem filter_true_add_filter_false (l : List Bool) :
    (l.filter (fun c => c)).length + (l.filter (fun c => !c)).length = l.length := by
  induction l with
  | nil => rfl
  | cons c rest ih =>
    cases c <;> simp [List.filter_cons] <;> omega

/-! ### Claim theorems -/

/-- C2 counterexample: the padding loop stops as soon as the length reaches
10, even in mid-pass, so three original items are padded to 12 items never —
the resulting rotation-order length for `N = 3` is 10, not 12. -/
theorem C2_counterexample :
    Theme1.paddedLength 3 = some 10 ∧ Theme1.paddedLength 3 ≠ some 12 := by
  decide

/-- C2 (amended): for every original item count `N` with `0 < N ≤ 10`, the
padded rotation order after init has length exactly `10 = max N 10`: the
cloning loop stops mid-pass the moment the length reaches 10, rather than
completing whole passes. -/
theorem C2_rotation_order_length (N : ℕ) (h1 : 0 < N) (h2 : N ≤ 10) :
    Theme1.paddedLength N = some 10 := by
  interval_cases N <;> decide

/-- C2 witness at `N = 3`. -/
theorem C2_rotation_order_length_witness : Theme1.paddedLength 3 = some 10 :=
  C2_rotation_order_length 3 (by decide) (by decide)

/-- C7: `rotate('next')` moves the last element to the front, `rotate('prev')`
moves the first element to the end, both preserve length, both are pure
cyclic rotations of the order, and they are mutually inverse. -/
theorem C7_rotate_pure_rotation {α : Type} (l : List α) (x : α) (xs : List α) :
    Theme1.rotate "next" (xs ++ [x]) = x :: xs ∧
    Theme1.rotate "prev" (x :: xs) = xs ++ [x] ∧
    (Theme1.rotate "next" l).length = l.length ∧
    (Theme1.rotate "prev" l).length = l.length ∧
    Theme1.rotate "next" l = l.rotate (l.length - 1) ∧
    Theme1.rotate "prev" l = l.rotate 1 ∧
    Theme1.rotate "prev" (Theme1.rotate "next" l) = l ∧
    Theme1.rotate "next" (Theme1.rotate "prev" l) = l := by
  have hnext : ∀ m : List α, Theme1.rotate "next" m = Theme1.rotateNext m := by
    intro m; rw [Theme1.rotate, if_pos rfl]
  have hprev : ∀ m : List α, Theme1.rotate "prev" m = Theme1.rotatePrev m := by
    intro m; rw [Theme1.rotate, if_neg (by decide)]
  refine ⟨?_, ?_, ?_, ?_, ?_, ?_, ?_, ?_⟩
  · rw [hnext, rotateNext_concat]
  · rw [hprev, Theme1.rotatePrev]
  · rw [hnext, rotateNext_eq_rotate, List.length_rotate]
  · rw [hprev, rotatePrev_eq_rotate, List.length_rotate]
  · rw [hnext, rotateNext_eq_rotate]
  · rw [hprev, rotatePrev_eq_rotate]
  · rw [hnext, hprev]
    rcases List.eq_nil_or_concat l with rfl | ⟨L, b, rfl⟩
    · rfl
    · rw [List.concat_eq_append, rotateNext_concat, Theme1.rotatePrev]
  · rw [hnext, hprev]
    rcases l with _ | ⟨y, ys⟩
    · rfl
    · rw [Theme1.rotatePrev, rotateNext_concat]

/-- C9: a missing required DOM anchor (for the video slider: track container,
slider container, or any original card; for the circular carousel: wrapper,
circle, items, prev/next buttons) makes initialization a silent no-op that
leaves the component state untouched. -/
theorem C9_missing_anchor_silent_noop (d : VideoTestimonials.VideoDom)
    (s : VideoTestimonials.VideoState) (e : Theme1.CircDom) :
    ((d.track = false ∨ d.slider = false ∨ d.cardCount = 0) →
      VideoTestimonials.init d s = s) ∧
    ((e.wrapper = false ∨ e.circle = false ∨ e.itemCount = 0 ∨
        e.prevBtn = false ∨ e.nextBtn = false) →
      Theme1.initCircularTestimonials e = none) := by
  constructor
  · intro h
    obtain ⟨t, sl, n⟩ := d
    rcases h with h | h | h <;> cases t <;> cases sl <;>
      simp_all [VideoTestimonials.init]
  · intro h
    obtain ⟨wr, ci, n, pb, nb⟩ := e
    rcases h with h | h | h | h | h <;> simp_all [Theme1.initCircularTestimonials]

/-- C9 witness: a missing slider container and a carousel with zero items. -/
theorem C9_missing_anchor_silent_noop_witness :
    VideoTestimonials.init ⟨true, false, 3⟩ ⟨0, 0, false⟩ = ⟨0, 0, false⟩ ∧
    Theme1.initCircularTestimonials ⟨true, true, 0, true, true⟩ = none :=
  ⟨(C9_missing_anchor_silent_noop ⟨true, false, 3⟩ ⟨0, 0, false⟩
      ⟨true, true, 0, true, true⟩).1 (Or.inr (Or.inl rfl)),
   (C9_missing_anchor_silent_noop ⟨true, false, 3⟩ ⟨0, 0, false⟩
      ⟨true, true, 0, true, true⟩).2 (Or.inr (Or.inr (Or.inl rfl)))⟩

/-- C3: a drag released past one third of a card's width commits exactly one
step — `next()` for a leftward drag in left-to-right layout, `prev()` in
right-to-left layout, and the opposite for a rightward drag — while a shorter
drag snaps back via `update(true)`, leaving `current` unchanged. -/
theorem C3_drag_threshold (rtl : Bool) (moved cardWidth : ℚ) (current : ℤ) :
    (|moved| > cardWidth / 3 → moved < 0 → rtl = false →
      VideoTestimonials.endDrag rtl moved cardWidth = .stepNext ∧
      VideoTestimonials.commitStep (VideoTestimonials.endDrag rtl moved cardWidth) current =
        current + 1) ∧
    (|moved| > cardWidth / 3 → moved < 0 → rtl = true →
      VideoTestimonials.endDrag rtl moved cardWidth = .stepPrev ∧
      VideoTestimonials.commitStep (VideoTestimonials.endDrag rtl moved cardWidth) current =
        current - 1) ∧
    (|moved| > cardWidth / 3 → 0 < moved → rtl = false →
      VideoTestimonials.endDrag rtl moved cardWidth = .stepPrev ∧
      VideoTestimonials.commitStep (VideoTestimonials.endDrag rtl moved cardWidth) current =
        current - 1) ∧
    (|moved| > cardWidth / 3 → 0 < moved → rtl = true →
      VideoTestimonials.endDrag rtl moved cardWidth = .stepNext ∧
      VideoTestimonials.commitStep (VideoTestimonials.endDrag rtl moved cardWidth) current =
        current + 1) ∧
    (|moved| < cardWidth / 3 →
      VideoTestimonials.endDrag rtl moved cardWidth = .snapBack ∧
      VideoTestimonials.commitStep (VideoTestimonials.endDrag rtl moved cardWidth) current =
        current) := by
  refine ⟨?_, ?_, ?_, ?_, ?_⟩
  · intro h1 h2 h3
    simp [VideoTestimonials.endDrag, VideoTestimonials.commitStep, h1, h2, h3]
  · intro h1 h2 h3
    simp [VideoTestimonials.endDrag, VideoTestimonials.commitStep, h1, h2, h3]
  · intro h1 h2 h3
    simp [VideoTestimonials.endDrag, VideoTestimonials.commitStep, h1, h3,
      not_lt_of_gt h2]
  · intro h1 h2 h3
    simp [VideoTestimonials.endDrag, VideoTestimonials.commitStep, h1, h3,
      not_lt_of_gt h2]
  · intro h
    simp [VideoTestimonials.endDrag, VideoTestimonials.commitStep,
      not_lt_of_gt h]

/-- C3 witness: a 50-pixel leftward drag against a 90-pixel card in
left-to-right layout commits one `next()` step. -/
theorem C3_drag_threshold_witness :
    VideoTestimonials.endDrag false (-50) 90 = .stepNext ∧
    VideoTestimonials.commitStep (VideoTestimonials.endDrag false (-50) 90) 7 = 7 + 1 :=
  (C3_drag_threshold false (-50) 90 7).1 (by rw [abs_neg]; norm_num [abs_of_pos])
    (by norm_num) rfl

/-- C6: anchor and direction computed by `getAnchorAndDir` for each of the
named origin presets: the anchor sits 20% outside the relevant viewport edge
and the direction is the perpendicular unit vector, with any unrecognized
origin falling back to the `top-center` preset. -/
theorem C6_ray_anchor_presets (w h : ℚ) :
    LightRays.getAnchorAndDir "left" w h = ((-0.2 * w, 0.5 * h), (1, 0)) ∧
    LightRays.getAnchorAndDir "bottom-right" w h = ((w, 1.2 * h), (0, -1)) ∧
    LightRays.getAnchorAndDir "top-left" w h = ((0, -0.2 * h), (0, 1)) ∧
    LightRays.getAnchorAndDir "top-right" w h = ((w, -0.2 * h), (0, 1)) ∧
    LightRays.getAnchorAndDir "right" w h = ((1.2 * w, 0.5 * h), (-1, 0)) ∧
    LightRays.getAnchorAndDir "bottom-left" w h = ((0, 1.2 * h), (0, -1)) ∧
    LightRays.getAnchorAndDir "bottom-center" w h = ((0.5 * w, 1.2 * h), (0, -1)) ∧
    LightRays.getAnchorAndDir "top-center" w h = ((0.5 * w, -0.2 * h), (0, 1)) ∧
    (∀ origin : String, origin ≠ "top-left" → origin ≠ "top-right" →
      origin ≠ "left" → origin ≠ "right" → origin ≠ "bottom-left" →
      origin ≠ "bottom-center" → origin ≠ "bottom-right" →
      LightRays.getAnchorAndDir origin w h = ((0.5 * w, -0.2 * h), (0, 1))) := by
  have houtside : (1 : ℚ) + LightRays.outside = 1.2 := by
    rw [LightRays.outside]; norm_num
  have hneg : ∀ q : ℚ, -LightRays.outside * q = -0.2 * q := by
    intro q; rw [LightRays.outside]
  refine ⟨?_, ?_, ?_, ?_, ?_, ?_, ?_, ?_, ?_⟩
  · simp [LightRays.getAnchorAndDir, hneg]
  · simp [LightRays.getAnchorAndDir, houtside]
  · simp [LightRays.getAnchorAndDir, hneg]
  · simp [LightRays.getAnchorAndDir, hneg]
  · simp [LightRays.getAnchorAndDir, houtside]
  · simp [LightRays.getAnchorAndDir, houtside]
  · simp [LightRays.getAnchorAndDir, houtside]
  · simp [LightRays.getAnchorAndDir, hneg]
  · intro origin h1 h2 h3 h4 h5 h6 h7
    simp [LightRays.getAnchorAndDir, h1, h2, h3, h4, h5, h6, h7, hneg]

/-- C6 witness: an unrecognized origin string falls back to `top-center`. -/
theorem C6_ray_anchor_presets_witness :
    LightRays.getAnchorAndDir "diagonal" 10 20 = ((0.5 * 10, -0.2 * 20), (0, 1)) :=
  (C6_ray_anchor_presets 10 20).2.2.2.2.2.2.2.2 "diagonal" (by decide) (by decide)
    (by decide) (by decide) (by decide) (by decide) (by decide)

/-- C10: `hexToRgb` is total — a string that is an optional `#` followed by
exactly six hexadecimal digits parses into three channels, each divided by
255 and therefore lying in `[0, 1]`; every other string yields the white
fallback `[1, 1, 1]`. -/
theorem C10_hexToRgb_total (s : String) :
    (LightRays.matchesHex s = true →
      ∃ r g b : ℕ, LightRays.hexChannels s = some (r, g, b) ∧
        r ≤ 255 ∧ g ≤ 255 ∧ b ≤ 255 ∧
        LightRays.hexToRgb s = [(r : ℚ) / 255, (g : ℚ) / 255, (b : ℚ) / 255] ∧
        ∀ q ∈ LightRays.hexToRgb s, 0 ≤ q ∧ q ≤ 1) ∧
    (LightRays.matchesHex s = false → LightRays.hexToRgb s = [1, 1, 1]) := by
  constructor
  · intro hmatch
    rw [LightRays.matchesHex] at hmatch
    simp only [Bool.and_eq_true, decide_eq_true_eq, List.all_eq_true] at hmatch
    obtain ⟨hlen, hall⟩ := hmatch
    have hgen : ∃ cs, LightRays.stripHash s.data = cs := ⟨_, rfl⟩
    obtain ⟨cs, hg⟩ := hgen
    rw [hg] at hlen hall
    rcases cs with _ | ⟨c1, _ | ⟨c2, _ | ⟨c3, _ | ⟨c4, _ | ⟨c5, _ | ⟨c6, _ | ⟨c7, t⟩⟩⟩⟩⟩⟩⟩ <;>
      try simp at hlen
    have hc1 := hall c1 (by simp)
    have hc2 := hall c2 (by simp)
    have hc3 := hall c3 (by simp)
    have hc4 := hall c4 (by simp)
    have hc5 := hall c5 (by simp)
    have hc6 := hall c6 (by simp)
    have hch : LightRays.hexChannels s =
        some (16 * LightRays.hexVal c1 + LightRays.hexVal c2,
          16 * LightRays.hexVal c3 + LightRays.hexVal c4,
          16 * LightRays.hexVal c5 + LightRays.hexVal c6) := by
      simp only [LightRays.hexChannels]
      rw [hg, if_pos (by simp [hc1, hc2, hc3, hc4, hc5, hc6])]
    have h1 := hexVal_le_of_isHexDigitChar c1 hc1
    have h2 := hexVal_le_of_isHexDigitChar c2 hc2
    have h3 := hexVal_le_of_isHexDigitChar c3 hc3
    have h4 := hexVal_le_of_isHexDigitChar c4 hc4
    have h5 := hexVal_le_of_isHexDigitChar c5 hc5
    have h6 := hexVal_le_of_isHexDigitChar c6 hc6
    refine ⟨16 * LightRays.hexVal c1 + LightRays.hexVal c2,
      16 * LightRays.hexVal c3 + LightRays.hexVal c4,
      16 * LightRays.hexVal c5 + LightRays.hexVal c6,
      hch, by omega, by omega, by omega, ?_, ?_⟩
    · rw [LightRays.hexToRgb, hch]
    · rw [LightRays.hexToRgb, hch]
      intro q hq
      have hcomp : ∀ v : ℕ, v ≤ 255 → 0 ≤ (v : ℚ) / 255 ∧ (v : ℚ) / 255 ≤ 1 := by
        intro v hv
        constructor
        · positivity
        · rw [div_le_one (by norm_num)]
          exact_mod_cast hv
      simp only [List.mem_cons, List.not_mem_nil, or_false] at hq
      rcases hq with rfl | rfl | rfl
      · exact hcomp _ (by omega)
      · exact hcomp _ (by omega)
      · exact hcomp _ (by omega)
  · intro hmatch
    rw [LightRays.matchesHex] at hmatch
    have hch : LightRays.hexChannels s = none := by
      simp only [LightRays.hexChannels]
      rw [hmatch]
      simp
    rw [LightRays.hexToRgb, hch]

/-- C1: the cloned video-testimonial track has length `3N`; starting from
`current = N`, after each of `N` consecutive `next()` calls the settled cursor
stays in `[N, 2N)` and its pixel offset agrees, modulo the track period
`(cardWidth + gap) * N`, with the offset of the never-re-homed cursor; and
the loop-check resets `current ≥ 2N` to `N` and `current < N` to `2N - 1`. -/
theorem C1_track_rehoming_invisible (N cardWidth gap k : ℕ) (orig : List ℕ)
    (hN : 0 < N) (hk1 : 1 ≤ k) (hkN : k ≤ N) (horig : orig.length = N) :
    (VideoTestimonials.cloneCards orig).length = 3 * N ∧
    ((N : ℤ) ≤ VideoTestimonials.settleIter N k ∧
      VideoTestimonials.settleIter N k < 2 * (N : ℤ)) ∧
    Int.ModEq (((cardWidth : ℤ) + (gap : ℤ)) * (N : ℤ))
      (VideoTestimonials.offsetPx cardWidth gap (VideoTestimonials.settleIter N k))
      (VideoTestimonials.offsetPx cardWidth gap ((N : ℤ) + (k : ℤ))) ∧
    (∀ c : ℤ, 2 * (N : ℤ) ≤ c → VideoTestimonials.checkLoop (3 * N) N c = (N : ℤ)) ∧
    (∀ c : ℤ, c < (N : ℤ) →
      VideoTestimonials.checkLoop (3 * N) N c = 2 * (N : ℤ) - 1) := by
  refine ⟨by rw [cloneCards_length, horig], ?_, ?_, ?_, ?_⟩
  · rcases lt_or_eq_of_le hkN with hlt | heq
    · rw [settleIter_of_lt N k hlt]
      constructor
      · omega
      · have : (k : ℤ) < (N : ℤ) := by exact_mod_cast hlt
        omega
    · rw [heq, settleIter_self N hN]
      constructor
      · omega
      · have : (0 : ℤ) < (N : ℤ) := by exact_mod_cast hN
        omega
  · rcases lt_or_eq_of_le hkN with hlt | heq
    · rw [settleIter_of_lt N k hlt]
    · rw [heq, settleIter_self N hN]
      rw [Int.ModEq]
      simp only [VideoTestimonials.offsetPx]
      rw [show ((cardWidth : ℤ) + (gap : ℤ)) * ((N : ℤ) + (N : ℤ)) =
        ((cardWidth : ℤ) + (gap : ℤ)) * (N : ℤ) +
          ((cardWidth : ℤ) + (gap : ℤ)) * (N : ℤ) * 1 by ring,
        Int.add_mul_emod_self_left]
  · intro c hc
    rw [VideoTestimonials.checkLoop]
    have h1 : ((3 * N : ℕ) : ℤ) - (N : ℤ) ≤ c := by
      push_cast
      omega
    simp only [h1, if_true]
  · intro c hc
    rw [VideoTestimonials.checkLoop]
    have hN0 : (0 : ℤ) ≤ (N : ℤ) := Int.ofNat_nonneg N
    have h1 : ¬ (((3 * N : ℕ) : ℤ) - (N : ℤ) ≤ c) := by
      push_cast
      omega
    simp only [h1, if_false, hc, if_true]
    push_cast
    ring

/-- C1 witness at `N = 3`, `cardWidth = 100`, `gap = 24`, `k = 3`. -/
theorem C1_track_rehoming_invisible_witness :
    (VideoTestimonials.cloneCards [0, 1, 2]).length = 3 * 3 ∧
    (((3 : ℕ) : ℤ) ≤ VideoTestimonials.settleIter 3 3 ∧
      VideoTestimonials.settleIter 3 3 < 2 * ((3 : ℕ) : ℤ)) ∧
    Int.ModEq ((((100 : ℕ) : ℤ) + ((24 : ℕ) : ℤ)) * ((3 : ℕ) : ℤ))
      (VideoTestimonials.offsetPx 100 24 (VideoTestimonials.settleIter 3 3))
      (VideoTestimonials.offsetPx 100 24 (((3 : ℕ) : ℤ) + ((3 : ℕ) : ℤ))) ∧
    (∀ c : ℤ, 2 * ((3 : ℕ) : ℤ) ≤ c →
      VideoTestimonials.checkLoop (3 * 3) 3 c = ((3 : ℕ) : ℤ)) ∧
    (∀ c : ℤ, c < ((3 : ℕ) : ℤ) →
      VideoTestimonials.checkLoop (3 * 3) 3 c = 2 * ((3 : ℕ) : ℤ) - 1) :=
  C1_track_rehoming_invisible 3 100 24 3 [0, 1, 2] (by decide) (by decide)
    (by decide) (by decide)

/-- C4: for `current = N + k` with `k < N` the active pagination dot is `k`;
for `current = N - 1` it is `N - 1`; in general the active dot is
`(current - N) mod N`, normalized into `[0, N)`; and the pagination holds
exactly `N` dots — one per original item. -/
theorem C4_pagination_mapping (N : ℕ) (i : ℤ) (k : ℕ) (hN : 0 < N) :
    (k < N → VideoTestimonials.getRealIndex N ((N : ℤ) + (k : ℤ)) = (k : ℤ)) ∧
    VideoTestimonials.getRealIndex N ((N : ℤ) - 1) = (N : ℤ) - 1 ∧
    (VideoTestimonials.getRealIndex N i = (i - (N : ℤ)) % (N : ℤ) ∧
      0 ≤ VideoTestimonials.getRealIndex N i ∧
      VideoTestimonials.getRealIndex N i < (N : ℤ)) ∧
    (VideoTestimonials.createPagination N).length = N := by
  have hNZ : (0 : ℤ) < (N : ℤ) := by exact_mod_cast hN
  refine ⟨?_, ?_, getRealIndex_eq_emod N hN i, by
    simp [VideoTestimonials.createPagination]⟩
  · intro hk
    obtain ⟨heq, -, -⟩ := getRealIndex_eq_emod N hN ((N : ℤ) + (k : ℤ))
    rw [heq, show (N : ℤ) + (k : ℤ) - (N : ℤ) = (k : ℤ) by ring]
    exact Int.emod_eq_of_lt (Int.ofNat_nonneg k) (by exact_mod_cast hk)
  · obtain ⟨heq, -, -⟩ := getRealIndex_eq_emod N hN ((N : ℤ) - 1)
    rw [heq, show (N : ℤ) - 1 - (N : ℤ) = -1 by ring]
    rw [show (-1 : ℤ) = ((N : ℤ) - 1) + (N : ℤ) * (-1) by ring,
      Int.add_mul_emod_self_left]
    exact Int.emod_eq_of_lt (by omega) (by omega)

/-- C4 witness at `N = 4`, `k = 2`, arbitrary cursor `-7`. -/
theorem C4_pagination_mapping_witness :
    VideoTestimonials.getRealIndex 4 (((4 : ℕ) : ℤ) + ((2 : ℕ) : ℤ)) = ((2 : ℕ) : ℤ) :=
  (C4_pagination_mapping 4 (-7) 2 (by decide)).1 (by decide)

/-- C10 witness: the valid string `#1A2b3C` parses into bounded channels. -/
theorem C10_hexToRgb_total_witness :
    ∃ r g b : ℕ, LightRays.hexChannels "#1A2b3C" = some (r, g, b) ∧
      r ≤ 255 ∧ g ≤ 255 ∧ b ≤ 255 ∧
      LightRays.hexToRgb "#1A2b3C" = [(r : ℚ) / 255, (g : ℚ) / 255, (b : ℚ) / 255] ∧
      ∀ q ∈ LightRays.hexToRgb "#1A2b3C", 0 ≤ q ∧ q ≤ 1 :=
  (C10_hexToRgb_total "#1A2b3C").1 (by decide)

/-- C8 counterexample: with a single still-pending image, init has already run
`positionItems()` once (the unconditional "initial draw for cached images")
although no image has loaded or errored yet — so initial positioning is not
deferred behind the image gate. -/
theorem C8_counterexample :
    (Theme1.initImageGate [false]).loadedImages = 0 ∧
    (Theme1.initImageGate [false]).positionCalls ≠ 0 ∧
    (Theme1.initImageGate [false]).autoStarted = false := by
  decide

/-- C8 (amended): the start of auto-advance is deferred until every image has
either loaded or errored, each counted exactly once — after init it has
started iff every image was already complete (vacuously when there are no
images), and firing the one pending event per remaining image brings the
counter to the image count and starts it — while initial positioning runs at
least once during init regardless of image state, and is run again when the
pending images settle (position calls strictly increase across the events). -/
theorem C8_image_gate (imgs : List Bool) :
    ((Theme1.initImageGate imgs).autoStarted = true ↔ imgs.all (fun c => c) = true) ∧
    (Theme1.initImageGate imgs).loadedImages = (imgs.filter (fun c => c)).length ∧
    1 ≤ (Theme1.initImageGate imgs).positionCalls ∧
    (Theme1.fireRemaining imgs (Theme1.initImageGate imgs)).loadedImages = imgs.length ∧
    (Theme1.fireRemaining imgs (Theme1.initImageGate imgs)).autoStarted = true ∧
    (0 < (imgs.filter (fun c => !c)).length →
      (Theme1.initImageGate imgs).positionCalls <
        (Theme1.fireRemaining imgs (Theme1.initImageGate imgs)).positionCalls) := by
  rcases hnil : imgs with _ | ⟨c0, rest⟩
  · exact ⟨by decide, by decide, by decide, by decide, by decide, by decide⟩
  · rw [← hnil]
    have htotpos : 0 < imgs.length := by rw [hnil]; simp
    have hinit : Theme1.initImageGate imgs =
        { Theme1.forEachImage imgs.length imgs ⟨0, 0, false⟩ with
          positionCalls :=
            (Theme1.forEachImage imgs.length imgs ⟨0, 0, false⟩).positionCalls + 1 } := by
      rw [Theme1.initImageGate]
      simp only [if_neg (by omega : ¬ imgs.length = 0)]
    obtain ⟨ha, hb, hc⟩ := forEachImage_spec imgs.length imgs ⟨0, 0, false⟩
    dsimp only at ha hb hc
    have hcntle : (imgs.filter (fun c => c)).length ≤ imgs.length :=
      List.length_filter_le _ imgs
    have hloaded : (Theme1.initImageGate imgs).loadedImages =
        (imgs.filter (fun c => c)).length := by
      rw [hinit]
      dsimp only
      rw [ha]
      omega
    have hstarted : (Theme1.initImageGate imgs).autoStarted =
        decide (0 < (imgs.filter (fun c => c)).length ∧
          imgs.length ≤ (imgs.filter (fun c => c)).length) := by
      rw [hinit]
      dsimp only
      rw [hb, Bool.false_or, decide_eq_decide]
      omega
    have hiff : (Theme1.initImageGate imgs).autoStarted = true ↔
        imgs.all (fun c => c) = true := by
      rw [hstarted, decide_eq_true_eq, List.all_eq_true]
      rw [← List.filter_length_eq_length]
      omega
    refine ⟨hiff, hloaded, ?_, ?_, ?_, ?_⟩
    · rw [hinit]
      dsimp only
      omega
    · rw [Theme1.fireRemaining]
      obtain ⟨hfa, -⟩ := foldOnImageLoad_spec imgs.length
        (imgs.filter (fun c => !c)) (Theme1.initImageGate imgs)
      rw [hfa, hloaded]
      have := filter_true_add_filter_false imgs
      omega
    · rw [Theme1.fireRemaining]
      obtain ⟨-, hfb⟩ := foldOnImageLoad_spec imgs.length
        (imgs.filter (fun c => !c)) (Theme1.initImageGate imgs)
      rw [hfb, hloaded]
      have hsum := filter_true_add_filter_false imgs
      by_cases hF : (imgs.filter (fun c => !c)).length = 0
      · have hallT : (Theme1.initImageGate imgs).autoStarted = true := by
          rw [hstarted, decide_eq_true_eq]
          omega
        rw [hallT, Bool.true_or]
      · have : decide (0 < (imgs.filter (fun c => !c)).length ∧
            imgs.length ≤ (imgs.filter (fun c => c)).length +
              (imgs.filter (fun c => !c)).length) = true := by
          rw [decide_eq_true_eq]
          omega
        rw [this, Bool.or_true]
    · intro hF
      rw [Theme1.fireRemaining]
      obtain ⟨-, hstrict⟩ := foldOnImageLoad_pos imgs.length
        (imgs.filter (fun c => !c)) (Theme1.initImageGate imgs)
      refine hstrict hF ?_
      rw [hloaded]
      have hsum := filter_true_add_filter_false imgs
      omega

/-- C8 witness: a single pending image — the init hypotheses hold and firing
its one event re-runs positioning. -/
theorem C8_image_gate_witness :
    (Theme1.initImageGate [false]).positionCalls <
      (Theme1.fireRemaining [false] (Theme1.initImageGate [false])).positionCalls :=
  (C8_image_gate [false]).2.2.2.2.2 (by decide)

/-- C5: `positionItems` places the item at position `i` at
`(centerX + R cos θ − w/2, centerY + R sin θ − h/2)` with
`R = max(210, 0.55·min(width, height))` and `θ = (2π/n)·i − π/2`; hence each
item's anchor point lies at distance exactly `R` from the container center,
and the `n` angular steps sum to `2π`. -/
theorem C5_ring_placement (w h itemW itemH : ℝ) (n i : ℕ) (hn : 0 < n) :
    Theme1.radius w h = max 210 (0.55 * min w h) ∧
    Theme1.itemX w h n i itemW =
      w / 2 + Theme1.radius w h * Real.cos (2 * Real.pi / (n : ℝ) * (i : ℝ) - Real.pi / 2) -
        itemW / 2 ∧
    Theme1.itemY w h n i itemH =
      h / 2 + Theme1.radius w h * Real.sin (2 * Real.pi / (n : ℝ) * (i : ℝ) - Real.pi / 2) -
        itemH / 2 ∧
    Theme1.planeDist
      (Theme1.itemX w h n i itemW + itemW / 2, Theme1.itemY w h n i itemH + itemH / 2)
      (w / 2, h / 2) = Theme1.radius w h ∧
    (n : ℝ) * Theme1.angleStep n = 2 * Real.pi := by
  have hr0 : (0 : ℝ) ≤ Theme1.radius w h :=
    le_trans (by norm_num) (le_max_left 210 (min w h * 0.55))
  refine ⟨by rw [Theme1.radius, mul_comm], rfl, rfl, ?_, ?_⟩
  · rw [Theme1.planeDist]
    dsimp only
    have hx : Theme1.itemX w h n i itemW + itemW / 2 - w / 2 =
        Theme1.radius w h * Real.cos (Theme1.itemAngle n i) := by
      rw [Theme1.itemX]
      ring
    have hy : Theme1.itemY w h n i itemH + itemH / 2 - h / 2 =
        Theme1.radius w h * Real.sin (Theme1.itemAngle n i) := by
      rw [Theme1.itemY]
      ring
    rw [hx, hy, mul_pow, mul_pow, ← mul_add, Real.cos_sq_add_sin_sq, mul_one,
      Real.sqrt_sq hr0]
  · rw [Theme1.angleStep, mul_comm,
      div_mul_cancel₀ (2 * Real.pi) (Nat.cast_ne_zero.mpr hn.ne')]

/-- C5 witness at `n = 4`: the four angular steps sum to `2π`. -/
theorem C5_ring_placement_witness :
    ((4 : ℕ) : ℝ) * Theme1.angleStep 4 = 2 * Real.pi :=
  (C5_ring_placement 100 80 10 6 4 1 (by decide)).2.2.2.2
